import Mathlib

set_option maxHeartbeats 1000000

/- Shallow embedding of the tetris engine (`game.ts`, class `Tetris` /
   `Tetrimino`, plus the earlier engine variant shipped in the repository
   whose `lockDown` also promotes the next piece).  Mutable state is passed
   explicitly; a JavaScript runtime `TypeError` (indexing a row that does
   not exist, so that `undefined[x]` is evaluated) is modelled by `Option`
   with `none` meaning "the original code would have thrown". -/

/-- Tetrimino shapes, in the order of the `TetriminoShape` enum. -/
inductive TetriminoShape where
  | O | I | T | L | J | S | Z
  | Gray | Ghost
deriving DecidableEq, Repr

/-- Rotation directions (`Rotation` enum). -/
inductive Rotation where
  | CW | CCW
deriving DecidableEq, Repr

/-- Orientations (`Facing` enum): 0 = North, 1 = East, 2 = South, 3 = West;
    rotation is cyclic, `+1 mod 4` clockwise and `+3 mod 4` counterclockwise,
    which is exactly `Fin 4` addition. -/
abbrev Facing := Fin 4

/-- Integer pair, the source's `Vec2`. -/
abbrev Vec2 := Int × Int

/-- Per-shape initial mino positions (the `Minos` table).  The source table
    has 7 entries; the two marker shapes `Gray`/`Ghost` have no entry (the
    engine never builds pieces of those shapes), rendered here as `[]`. -/
def MinosOf : TetriminoShape → List Vec2
  | .O => [(0, 0), (1, 0), (0, 1), (1, 1)]
  | .I => [(-1, 0), (0, 0), (1, 0), (2, 0)]
  | .T => [(-1, 0), (0, 0), (1, 0), (0, 1)]
  | .L => [(-1, 0), (0, 0), (1, 0), (1, 1)]
  | .J => [(-1, 1), (-1, 0), (0, 0), (1, 0)]
  | .S => [(-1, 0), (0, 0), (0, 1), (1, 1)]
  | .Z => [(-1, 1), (0, 1), (0, 0), (1, 0)]
  | _ => []

/-- One SRS offset-table row: one offset vector per facing
    (indexed North, East, South, West like the source's 4-element arrays). -/
abbrev OffRow := Vec2 × Vec2 × Vec2 × Vec2

/-- Index an offset-table row by a facing (`testOffsets[facing]`). -/
def offAt (r : OffRow) : Facing → Vec2
  | 0 => r.1
  | 1 => r.2.1
  | 2 => r.2.2.1
  | 3 => r.2.2.2

/-- Offset values for each SRS test point for T, L, J, S and Z
    (`OffsetsTLJSZ`), rows "Point 1" … "Point 5" in source order. -/
def OffsetsTLJSZ : List OffRow :=
  [ ((0, 0), (0, 0), (0, 0), (0, 0)),
    ((0, 0), (1, 0), (0, 0), (-1, 0)),
    ((0, 0), (1, -1), (0, 0), (-1, -1)),
    ((0, 0), (0, 2), (0, 0), (0, 2)),
    ((0, 0), (1, 2), (0, 0), (1, 2)) ]

/-- Offset values for each SRS test point for the I piece (`OffsetsI`). -/
def OffsetsI : List OffRow :=
  [ ((0, 0), (-1, 0), (-1, 1), (0, 1)),
    ((-1, 0), (0, 0), (1, 1), (0, 1)),
    ((2, 0), (0, 0), (-2, 1), (0, 1)),
    ((-1, 0), (0, 1), (1, 0), (0, -1)),
    ((2, 0), (0, -2), (-2, 0), (0, 2)) ]

/-- Offset values for the single SRS test point of the O piece (`OffsetsO`). -/
def OffsetsO : List OffRow :=
  [ ((0, 0), (0, -1), (-1, -1), (-1, 0)) ]

/-- The `SRSOffsets` mapping from shape to offset data.  The source array has
    7 entries; the marker shapes have none (rendered `[]`, never reached). -/
def SRSOffsetsOf : TetriminoShape → List OffRow
  | .O => OffsetsO
  | .I => OffsetsI
  | .T | .L | .J | .S | .Z => OffsetsTLJSZ
  | _ => []

/-- A piece (`Tetrimino`): shape, current relative mino positions, center
    position in the matrix, and facing.  `initMinos` is not stored: it is
    always `MinosOf shape` (the source only ever reads the shared table). -/
structure Tetrimino where
  shape : TetriminoShape
  minos : List Vec2
  center : Vec2
  facing : Facing
deriving DecidableEq, Repr

/-- The `x` getter of `Tetrimino` (center x). -/
def Tetrimino.x (t : Tetrimino) : Int := t.center.1

/-- The `y` getter of `Tetrimino` (center y). -/
def Tetrimino.y (t : Tetrimino) : Int := t.center.2

/-- A freshly constructed piece (the `Tetrimino` constructor): minos copied
    from the shape table, facing North, center (0, 0). -/
def Tetrimino.mkShape (s : TetriminoShape) : Tetrimino :=
  { shape := s, minos := MinosOf s, center := (0, 0), facing := 0 }

/-- `resetRotation`: facing := North, copy the initial minos back into the
    current minos. -/
def Tetrimino.resetRotation (t : Tetrimino) : Tetrimino :=
  { t with facing := 0, minos := MinosOf t.shape }

/-- `rotateMinosCW`: each mino `(x, y) ↦ (y, -x)`, facing `+1 mod 4`. -/
def Tetrimino.rotateMinosCW (t : Tetrimino) : Tetrimino :=
  { t with minos := t.minos.map fun v => (v.2, -v.1), facing := t.facing + 1 }

/-- `rotateMinosCCW`: each mino `(x, y) ↦ (-y, x)`, facing `+3 mod 4`. -/
def Tetrimino.rotateMinosCCW (t : Tetrimino) : Tetrimino :=
  { t with minos := t.minos.map fun v => (-v.2, v.1), facing := t.facing + 3 }

/-- The collision matrix: a list of rows (row 0 is the floor row), each row a
    list of cells, `none` = empty.  The constructor allocates `2 * height`
    rows of `width` cells. -/
abbrev GameMatrix := List (List (Option TetriminoShape))

/-- A freshly allocated matrix: `2 * height` empty rows of `width` cells. -/
def mkMatrix (w h : ℕ) : GameMatrix :=
  List.replicate (2 * h) (List.replicate w none)

/-- Read `matrix[y][x]`: `none` when the row does not exist (negative or too
    large `y`, where JS gives `undefined` for the row), otherwise the cell
    when the column index is valid. -/
def getCell (m : GameMatrix) (x y : Int) : Option (Option TetriminoShape) :=
  if 0 ≤ y ∧ 0 ≤ x then
    (m.get? y.toNat).bind fun row => row.get? x.toNat
  else none

/-- `checkCollision(centerX, centerY, minos)`: scan the minos, short-circuit
    on the first colliding cell, exactly as the source loop:
    `x < 0 || x >= width || y < 0 || matrix[y][x] !== null`.
    The matrix row is only dereferenced after the three bound checks pass, so
    a `y` at or beyond the allocated rows reaches `matrix[y][x]` with
    `matrix[y] = undefined` and throws (`none` here).  A valid row with an
    out-of-range column gives `undefined !== null`, i.e. a collision.
    The source performs no writes, so the embedding is a pure query. -/
def checkCollision (w : ℕ) (m : GameMatrix) (cx cy : Int) :
    List Vec2 → Option Bool
  | [] => some false
  | v :: rest =>
    let x := cx + v.1
    let y := cy + v.2
    if x < 0 ∨ (w : Int) ≤ x ∨ y < 0 then some true
    else
      match m.get? y.toNat with
      | none => none
      | some row =>
        match row.get? x.toNat with
        | none => some true
        | some none => checkCollision w m cx cy rest
        | some (some _) => some true

/-- Write one cell into a row (`row[x] = shape`).  A column outside the row
    is observationally a no-op: JS stores it as a non-index property that no
    indexed read ever sees. -/
def writeRowCell (row : List (Option TetriminoShape)) (x : Int)
    (s : TetriminoShape) : List (Option TetriminoShape) :=
  if 0 ≤ x then row.set x.toNat (some s) else row

/-- Write `matrix[y][x] = shape` (one `lockDown` cell write).  A missing row
    throws (`none`). -/
def writeCell (m : GameMatrix) (x y : Int) (s : TetriminoShape) :
    Option GameMatrix :=
  if 0 ≤ y then
    match m.get? y.toNat with
    | none => none
    | some row => some (m.set y.toNat (writeRowCell row x s))
  else none

/-- The `lockDown` write loop: write every mino cell of the piece. -/
def writeCells (cx cy : Int) (s : TetriminoShape) :
    List Vec2 → GameMatrix → Option GameMatrix
  | [], m => some m
  | v :: rest, m =>
    (writeCell m (cx + v.1) (cy + v.2) s).bind (writeCells cx cy s rest)

/-- Game configuration (the fields of `TetrisConfig` the core rules read). -/
structure TetrisConfig where
  matrixWidth : ℕ
  matrixHeight : ℕ
  linesPerLevel : ℕ
  maxLevel : ℕ
deriving DecidableEq, Repr

/-- Engine state of the current `game.ts` (class `Tetris`).  The random
    source is not part of the state: operations that shuffle take the drawn
    indices as an explicit argument. -/
structure Tetris where
  cfg : TetrisConfig
  matrix : GameMatrix
  tetrimino : Tetrimino
  nextTetrimino : Tetrimino
  heldTetrimino : Option Tetrimino
  score : ℕ
  level : ℕ
  highScore : ℕ
  genBag : List Tetrimino
  bagIndex : ℕ
  canHold : Bool
deriving DecidableEq, Repr

/-- Engine state of the earlier variant (`part_000`): no hold, a
    `linesCleared` counter instead of `score`, and a `lockDown` that also
    promotes the next piece. -/
structure TetrisV0 where
  cfg : TetrisConfig
  matrix : GameMatrix
  tetrimino : Tetrimino
  nextTetrimino : Tetrimino
  linesCleared : ℕ
  level : ℕ
  genBag : List Tetrimino
  bagIndex : ℕ
deriving DecidableEq, Repr

/-- Swap two positions of a list (one Fisher–Yates step).  When an index is
    out of range this is the identity; the real `Math.random` draws always
    give in-range indices (`j = ⌊random()·(i+1)⌋ ≤ i < length`), which the
    theorems assume via `js i ≤ i`. -/
def swapIdx (l : List α) (i j : ℕ) : List α :=
  match l.get? i, l.get? j with
  | some a, some b => (l.set i b).set j a
  | _, _ => l

/-- The `shuffleBag` downward loop: for `i = n, …, 1` swap position `i` with
    position `js i`, where `js i` stands for `Math.floor(Math.random()*(i+1))`. -/
def fyAux (js : ℕ → ℕ) : ℕ → List α → List α
  | 0, l => l
  | i + 1, l => fyAux js i (swapIdx l (i + 1) (js (i + 1)))

/-- `shuffleBag` (Fisher–Yates) on the bag contents; the caller also resets
    the cursor to 0, as in `drawFromBag`. -/
def fisherYates (js : ℕ → ℕ) (l : List α) : List α := fyAux js (l.length - 1) l

/-- `getNextTetrimino` at the bag level: reshuffle when the cursor is
    exhausted (cursor back to 0), then serve `genBag[bagIndex++]`.
    `none` would require an empty bag; the engine's bag always has 7. -/
def drawFromBag (js : ℕ → ℕ) (bag : List Tetrimino) (idx : ℕ) :
    Option (Tetrimino × List Tetrimino × ℕ) :=
  if bag.length ≤ idx then
    let bag' := fisherYates js bag
    (bag'.get? 0).map fun t => (t, bag', 1)
  else
    (bag.get? idx).map fun t => (t, bag, idx + 1)

/-- `spawnTetrimino` of the current engine: center
    `(⌊width/2⌋ - 1, height)` and rotation reset. -/
def spawnPiece (cfg : TetrisConfig) (t : Tetrimino) : Tetrimino :=
  Tetrimino.resetRotation { t with center := ((cfg.matrixWidth : Int) / 2 - 1, (cfg.matrixHeight : Int)) }

/-- `spawnTetrimino` of the earlier variant: fixed center (4, 20) and
    rotation reset. -/
def spawnPieceV0 (t : Tetrimino) : Tetrimino :=
  Tetrimino.resetRotation { t with center := (4, 20) }

/-- The engine's collision oracle applied to its own matrix and width. -/
def Tetris.checkCol (g : Tetris) (cx cy : Int) (minos : List Vec2) : Option Bool :=
  checkCollision g.cfg.matrixWidth g.matrix cx cy minos

/-- Move the active piece's center down one row (`this.tetrimino.y--`). -/
def Tetris.pieceDown (g : Tetris) : Tetris :=
  { g with tetrimino :=
      { g.tetrimino with center := (g.tetrimino.x, g.tetrimino.y - 1) } }

/-- `moveDown()`: probe one cell below (blocked: landed in place), then two
    cells below (blocked: move down one, landed), else move down one and
    keep falling.  The Bool result is `true` when the piece landed. -/
def moveDown (g : Tetris) : Option (Bool × Tetris) :=
  (g.checkCol g.tetrimino.x (g.tetrimino.y - 1) g.tetrimino.minos).bind fun c1 =>
    if c1 then some (true, g)
    else
      (g.checkCol g.tetrimino.x (g.tetrimino.y - 2) g.tetrimino.minos).map fun c2 =>
        if c2 then (true, g.pieceDown) else (false, g.pieceDown)

/-- `moveX(dx)`: clamp the target column into `[0, width-1]`, collision-test
    it at the current row, move only on success. -/
def moveX (dx : Int) (g : Tetris) : Option (Bool × Tetris) :=
  let x := max 0 (min (g.tetrimino.x + dx) ((g.cfg.matrixWidth : Int) - 1))
  (g.checkCol x g.tetrimino.y g.tetrimino.minos).map fun c =>
    if c then (false, g)
    else (true, { g with tetrimino := { g.tetrimino with center := (x, g.tetrimino.y) } })

/-- The kick a table row yields for a rotation from `oldF` to `newF`:
    `offsetFrom - offsetTo`, i.e. `row[oldFacing] - row[newFacing]`. -/
def rowKick (r : OffRow) (oldF newF : Facing) : Vec2 :=
  ((offAt r oldF).1 - (offAt r newF).1, (offAt r oldF).2 - (offAt r newF).2)

/-- One SRS collision probe: test the (already rotated) piece translated by
    the candidate kick, `checkCollision(x + offsetX, y + offsetY, minos)`. -/
def kickProbe (w : ℕ) (m : GameMatrix) (t : Tetrimino) (k : Vec2) : Option Bool :=
  checkCollision w m (t.x + k.1) (t.y + k.2) t.minos

/-- The `testSRSOffsets` loop on the already-rotated piece `t`: rows are
    tested in order; each row's kick is `row[oldFacing] - row[newFacing]`;
    the first row whose collision probe is clean yields `some (some kick)`;
    `some none` means every row collided; `none` means a probe threw. -/
def findKick (w : ℕ) (m : GameMatrix) (t : Tetrimino) (oldF newF : Facing) :
    List OffRow → Option (Option Vec2)
  | [] => some none
  | row :: rest =>
    match kickProbe w m t (rowKick row oldF newF) with
    | none => none
    | some true => findKick w m t oldF newF rest
    | some false => some (some (rowKick row oldF newF))

/-- The mino rotation a direction selects (the if/else of `rotate`). -/
def rotDir : Rotation → Tetrimino → Tetrimino
  | .CW, t => t.rotateMinosCW
  | .CCW, t => t.rotateMinosCCW

/-- The opposite mino rotation (the undo branch of `rotate`). -/
def rotDirInv : Rotation → Tetrimino → Tetrimino
  | .CW, t => t.rotateMinosCCW
  | .CCW, t => t.rotateMinosCW

/-- `Tetrimino.rotate(dir)`: rotate the minos and facing, run the SRS tests;
    on failure undo the rotation (opposite mino rotation, which also restores
    the facing) and report `false`; on success translate the center by the
    winning kick and report `true`. -/
def rotatePiece (w : ℕ) (m : GameMatrix) (dir : Rotation) (t : Tetrimino) :
    Option (Bool × Tetrimino) :=
  let t1 := rotDir dir t
  match findKick w m t1 t.facing t1.facing (SRSOffsetsOf t1.shape) with
  | none => none
  | some none => some (false, rotDirInv dir t1)
  | some (some k) =>
    some (true, { t1 with center := (t1.x + k.1, t1.y + k.2) })

/-- `Tetris.rotate(dir)`: delegate to the active piece (the matrix is only
    read, never written, by the rotation code). -/
def rotateGame (dir : Rotation) (g : Tetris) : Option (Bool × Tetris) :=
  (rotatePiece g.cfg.matrixWidth g.matrix dir g.tetrimino).map fun bt =>
    (bt.1, { g with tetrimino := bt.2 })

/-- The body of the `clearLine` shift loop, structurally recursive on the
    remaining iteration count: copy row `y+1` onto row `y`, advance. -/
def clearRowsGo : ℕ → GameMatrix → ℕ → Option GameMatrix
  | 0, m, _ => some m
  | n + 1, m, y =>
    match m.get? (y + 1) with
    | none => none
    | some row => clearRowsGo n (m.set y row) (y + 1)

/-- The `clearLine` shift loop: `for (y = lineY; y < height; y++)
    matrix[y] := matrix[y+1]` — sequential row copies (the loop body runs
    exactly `height - lineY` times); each target row reads the next row
    before that one is overwritten. -/
def clearRowsLoop (m : GameMatrix) (y h : ℕ) : Option GameMatrix :=
  clearRowsGo (h - y) m y

/-- `clearLine(y)`: shift the rows above `y` down through `height-1`, bump
    the cleared-line counter (`score`), track the high score, and recompute
    `level = min(1 + ⌊score/linesPerLevel⌋, maxLevel)`.  (The optional
    local-storage write of the high score is an external side effect with no
    bearing on the engine state.) -/
def clearLine (y : ℕ) (g : Tetris) : Option Tetris :=
  (clearRowsLoop g.matrix y g.cfg.matrixHeight).map fun m' =>
    let score' := g.score + 1
    { g with
      matrix := m'
      score := score'
      highScore := if score' > g.highScore then score' else g.highScore
      level := min (1 + score' / g.cfg.linesPerLevel) g.cfg.maxLevel }

/-- `lockDown()` of the current engine: write every occupied cell of the
    active piece into the matrix; nothing else changes. -/
def lockDownGame (g : Tetris) : Option Tetris :=
  (writeCells g.tetrimino.x g.tetrimino.y g.tetrimino.shape g.tetrimino.minos
      g.matrix).map fun m' => { g with matrix := m' }

/-- `swapNextTetrimino()`: promote the next piece to active, draw a new next
    piece from the bag, and re-enable hold. -/
def swapNextTetrimino (js : ℕ → ℕ) (g : Tetris) : Option Tetris :=
  (drawFromBag js g.genBag g.bagIndex).map fun tb =>
    { g with tetrimino := g.nextTetrimino, nextTetrimino := tb.1,
             genBag := tb.2.1, bagIndex := tb.2.2, canHold := true }

/-- `hold()`: when allowed, stash the active piece (drawing a replacement
    from the bag the first time, swapping with the held piece afterwards),
    respawn the new active piece at the spawn point, and disable hold until
    the next promotion.  When not allowed, report `false` and change nothing. -/
def hold (js : ℕ → ℕ) (g : Tetris) : Option (Bool × Tetris) :=
  if g.canHold then
    match g.heldTetrimino with
    | none =>
      (drawFromBag js g.genBag g.bagIndex).map fun tb =>
        (true, { g with
          heldTetrimino := some g.tetrimino
          tetrimino := spawnPiece g.cfg g.nextTetrimino
          nextTetrimino := tb.1
          genBag := tb.2.1
          bagIndex := tb.2.2
          canHold := false })
    | some held =>
      some (true, { g with
        heldTetrimino := some g.tetrimino
        tetrimino := spawnPiece g.cfg held
        canHold := false })
  else some (false, g)

/-- `lockDown()` of the earlier engine variant: write the piece's cells into
    the matrix, promote the next piece to active, draw a new next piece from
    the bag, and respawn the (new) active piece. -/
def lockDownV0 (js : ℕ → ℕ) (g : TetrisV0) : Option TetrisV0 :=
  (writeCells g.tetrimino.x g.tetrimino.y g.tetrimino.shape g.tetrimino.minos
      g.matrix).bind fun m' =>
    (drawFromBag js g.genBag g.bagIndex).map fun tb =>
      { g with matrix := m'
               tetrimino := spawnPieceV0 g.nextTetrimino
               nextTetrimino := tb.1
               genBag := tb.2.1
               bagIndex := tb.2.2 }

/-- Bag state threaded through a sequence of draws: contents, cursor, and
    how many shuffles have happened (the shuffle counter selects which row
    of the randomness table the next shuffle consumes). -/
structure BagState where
  bag : List Tetrimino
  idx : ℕ
  shuffles : ℕ
deriving DecidableEq, Repr

/-- One draw with an explicit randomness table `st` (row `k` of `st` is the
    index sequence consumed by shuffle number `k`). -/
def drawStream (st : ℕ → ℕ → ℕ) (s : BagState) : Option (Tetrimino × BagState) :=
  (drawFromBag (st s.shuffles) s.bag s.idx).map fun tb =>
    (tb.1, { bag := tb.2.1, idx := tb.2.2,
             shuffles := if s.bag.length ≤ s.idx then s.shuffles + 1 else s.shuffles })

/-- The list of the next `n` draws (and the state after them). -/
def drawN (st : ℕ → ℕ → ℕ) : ℕ → BagState → Option (List Tetrimino × BagState)
  | 0, s => some ([], s)
  | n + 1, s =>
    (drawStream st s).bind fun ts =>
      (drawN st n ts.2).map fun ls => (ts.1 :: ls.1, ls.2)

/-- The seven playable shapes in enum order (what one full bag contains). -/
def sevenShapes : List TetriminoShape :=
  [.O, .I, .T, .L, .J, .S, .Z]

/-- Modelled from the spec's words for the `checkCollision` contract (C2):
    a cell collides iff it is out of horizontal bounds, below the floor, or
    already occupied in the matrix — with no upper bound on `y`. -/
def collisionSpecB (w : ℕ) (m : GameMatrix) (cx cy : Int) (minos : List Vec2) : Bool :=
  minos.any fun v =>
    decide (cx + v.1 < 0) || decide ((w : Int) ≤ cx + v.1) || decide (cy + v.2 < 0) ||
      match getCell m (cx + v.1) (cy + v.2) with
      | some (some _) => true
      | _ => false

/-- A sequence of `clearLine` calls (used to state the leveling claims). -/
def iterClear : List ℕ → Tetris → Option Tetris
  | [], g => some g
  | y :: ys, g => (clearLine y g).bind (iterClear ys)

/-- The bag as the constructor fills it: one piece of each playable shape. -/
def freshBag : List Tetrimino := sevenShapes.map Tetrimino.mkShape

/-- A small concrete game state for witnesses: empty `2h × w` matrix, both
    pieces freshly constructed, constructor-like counters. -/
def mkGame (w h : ℕ) (t nxt : Tetrimino) : Tetris :=
  { cfg := ⟨w, h, 10, 15⟩, matrix := mkMatrix w h, tetrimino := t,
    nextTetrimino := nxt, heldTetrimino := none, score := 0, level := 1,
    highScore := 0, genBag := freshBag, bagIndex := 2, canHold := true }

/-- Witness state for the `moveDown` claim: an O piece resting on the floor
    of a 2-wide matrix. -/
def gMoveDown : Tetris := mkGame 2 2 (Tetrimino.mkShape .O) (Tetrimino.mkShape .I)

/-- Witness state for the rotation claims: a T piece walled in so that every
    SRS test point collides (the cell (0, 2) is occupied, the rest is the
    floor and the side walls of a 3-wide matrix). -/
def gRotFail : Tetris :=
  { mkGame 3 2 { Tetrimino.mkShape .T with center := (1, 0) } (Tetrimino.mkShape .I)
      with matrix := [[none, none, none], [none, none, none],
                      [some .Gray, none, none], [none, none, none]] }

/-- Witness state for rotation success: an O piece at the origin of a 2-wide
    matrix (the O piece's single offset row always kicks it back in place). -/
def gRotO : Tetris := mkGame 2 2 (Tetrimino.mkShape .O) (Tetrimino.mkShape .I)

/-- Witness state for the four-rotation round trip: a free T piece in the
    middle of a 5-wide matrix. -/
def gRot4 : Tetris :=
  mkGame 5 5 { Tetrimino.mkShape .T with center := (2, 4) } (Tetrimino.mkShape .I)

/-- Witness state for the line-clear claims: the bottom row of a 2-wide
    matrix is full, one extra block above it. -/
def gClear : Tetris :=
  { mkGame 2 2 (Tetrimino.mkShape .O) (Tetrimino.mkShape .I)
      with matrix := [[some .O, some .O], [some .I, none], [none, none], [none, none]] }

/-- Witness state for the earlier engine's `lockDown`: an O piece at the
    origin of a standard 10 × 20 matrix. -/
def gV0 : TetrisV0 :=
  { cfg := ⟨10, 20, 10, 15⟩, matrix := mkMatrix 10 20,
    tetrimino := Tetrimino.mkShape .O, nextTetrimino := Tetrimino.mkShape .I,
    linesCleared := 0, level := 1, genBag := freshBag, bagIndex := 2 }

/-- Witness pieces for the four-rotation round trip: a T piece at (2, 4) in
    a 5-wide matrix and its four successive clockwise rotation results. -/
def t9a : Tetrimino := { Tetrimino.mkShape .T with center := (2, 4) }

/-- State after the first clockwise rotation of `t9a`. -/
def t9b : Tetrimino := ((rotatePiece 5 (mkMatrix 5 5) .CW t9a).getD (false, t9a)).2

/-- State after the second clockwise rotation of `t9a`. -/
def t9c : Tetrimino := ((rotatePiece 5 (mkMatrix 5 5) .CW t9b).getD (false, t9b)).2

/-- State after the third clockwise rotation of `t9a`. -/
def t9d : Tetrimino := ((rotatePiece 5 (mkMatrix 5 5) .CW t9c).getD (false, t9c)).2

/-- State after the fourth clockwise rotation of `t9a`. -/
def t9e : Tetrimino := ((rotatePiece 5 (mkMatrix 5 5) .CW t9d).getD (false, t9d)).2

/-- Witness state for the hold claim: hold already used since the last
    promotion. -/
def gHold : Tetris :=
  { mkGame 2 2 (Tetrimino.mkShape .O) (Tetrimino.mkShape .I) with canHold := false }

/- ————————————————— Theorems ————————————————— -/

/-- Helper: the cell fetched by a successful in-range lookup. -/
theorem getCell_of_bounds {m : GameMatrix} {x y : Int} {row : List (Option TetriminoShape)}
    {c : Option TetriminoShape}
    (hx : 0 ≤ x) (hy : 0 ≤ y) (hrow : m.get? y.toNat = some row)
    (hc : row.get? x.toNat = some c) :
    getCell m x y = some c := by
  unfold getCell
  rw [if_pos (And.intro hy hx), hrow]
  exact hc

/-- C2 (amended): for every probe whose cells all lie inside the allocated
    doubled-height matrix (and rows at least `width` wide, as allocated),
    `checkCollision` returns exactly the spec-side collision verdict: true
    iff some resulting cell has `x < 0`, `x ≥ width`, `y < 0`, or is already
    occupied; and it is a pure query (the embedding returns only the Bool).
    Above-skyline rows inside the allocation are consulted like any other;
    the claim's "no upper bound on y" fails only at or beyond the allocated
    `2·height` rows, where the original code throws instead (see the
    counterexample). -/
theorem checkCollision_matches_spec (w : ℕ) (m : GameMatrix) (cx cy : Int)
    (minos : List Vec2)
    (halloc : ∀ v ∈ minos, 0 ≤ cy + v.2 → (cy + v.2).toNat < m.length)
    (hrows : ∀ row ∈ m, w ≤ row.length) :
    checkCollision w m cx cy minos = some (collisionSpecB w m cx cy minos) := by
  induction minos with
  | nil => rfl
  | cons v rest ih =>
    have hv := halloc v (List.mem_cons_self v rest)
    by_cases hb : cx + v.1 < 0 ∨ (w : Int) ≤ cx + v.1 ∨ cy + v.2 < 0
    · simp only [checkCollision, collisionSpecB, List.any_cons, if_pos hb]
      rcases hb with h | h | h <;> simp [h]
    · push_neg at hb
      obtain ⟨hx0, hxw, hy0⟩ := hb
      have hylt : (cy + v.2).toNat < m.length := hv hy0
      have hrow : m.get? (cy + v.2).toNat = some (m.get ⟨(cy + v.2).toNat, hylt⟩) :=
        List.get?_eq_get hylt
      have hlen : w ≤ (m.get ⟨(cy + v.2).toNat, hylt⟩).length :=
        hrows _ (m.get_mem _ _)
      have hxlt : (cx + v.1).toNat < (m.get ⟨(cy + v.2).toNat, hylt⟩).length := by
        omega
      have hcell : (m.get ⟨(cy + v.2).toNat, hylt⟩).get? (cx + v.1).toNat =
          some ((m.get ⟨(cy + v.2).toNat, hylt⟩).get ⟨(cx + v.1).toNat, hxlt⟩) :=
        List.get?_eq_get hxlt
      have hnb : ¬(cx + v.1 < 0 ∨ (w : Int) ≤ cx + v.1 ∨ cy + v.2 < 0) := by
        push_neg; exact ⟨hx0, hxw, hy0⟩
      have hg : getCell m (cx + v.1) (cy + v.2) =
          some ((m.get ⟨(cy + v.2).toNat, hylt⟩).get ⟨(cx + v.1).toNat, hxlt⟩) :=
        getCell_of_bounds hx0 hy0 hrow hcell
      simp only [checkCollision, collisionSpecB, List.any_cons, if_neg hnb, hrow, hcell, hg]
      cases hc : (m.get ⟨(cy + v.2).toNat, hylt⟩).get ⟨(cx + v.1).toNat, hxlt⟩ with
      | none =>
        simp only [hc]
        have := ih (fun u hu => halloc u (List.mem_cons_of_mem v hu))
        simp only [collisionSpecB] at this
        simp [this, hx0, hxw, hy0, not_lt.mpr hx0, not_lt.mpr hy0, not_le.mpr hxw]
      | some s =>
        simp [hc, hx0, hxw, hy0]

/-- C2 counterexample: probing one row above the allocated doubled matrix
    (width 1, height 1, so 2 allocated rows; probe at y = 2).  The claim
    says the cell is accepted and treated as empty (no collision, i.e. the
    call returns false); the code dereferences the missing row and throws
    (`none`), so it does not return at all. -/
theorem checkCollision_above_alloc_throws :
    checkCollision 1 (mkMatrix 1 1) 0 2 [((0 : Int), (0 : Int))] = none ∧
    collisionSpecB 1 (mkMatrix 1 1) 0 2 [((0 : Int), (0 : Int))] = false ∧
    checkCollision 1 (mkMatrix 1 1) 0 2 [((0 : Int), (0 : Int))] ≠
      some (collisionSpecB 1 (mkMatrix 1 1) 0 2 [((0 : Int), (0 : Int))]) := by
  refine ⟨rfl, rfl, by decide⟩

/-- C2 witness: the amended theorem evaluated on a concrete in-allocation
    probe (a cell at x = -1 collides, per the spec-side predicate). -/
theorem checkCollision_matches_spec_witness :
    checkCollision 2 (mkMatrix 2 1) (-1) 0 [((0 : Int), (0 : Int)), ((1 : Int), (0 : Int))] =
      some (collisionSpecB 2 (mkMatrix 2 1) (-1) 0 [((0 : Int), (0 : Int)), ((1 : Int), (0 : Int))]) :=
  checkCollision_matches_spec 2 (mkMatrix 2 1) (-1) 0 _ (by decide) (by decide)

/-- C5: `moveDown` lands in place when one cell below collides; moves down
    one and lands when only two cells below collide; moves down one and
    keeps falling otherwise; and once a call reports "landed", repeating it
    reports "landed" again without any further state change. -/
theorem moveDown_spec (g : Tetris) :
    (g.checkCol g.tetrimino.x (g.tetrimino.y - 1) g.tetrimino.minos = some true →
      moveDown g = some (true, g)) ∧
    (g.checkCol g.tetrimino.x (g.tetrimino.y - 1) g.tetrimino.minos = some false →
      g.checkCol g.tetrimino.x (g.tetrimino.y - 2) g.tetrimino.minos = some true →
      moveDown g = some (true, g.pieceDown)) ∧
    (g.checkCol g.tetrimino.x (g.tetrimino.y - 1) g.tetrimino.minos = some false →
      g.checkCol g.tetrimino.x (g.tetrimino.y - 2) g.tetrimino.minos = some false →
      moveDown g = some (false, g.pieceDown)) ∧
    (∀ g', moveDown g = some (true, g') → moveDown g' = some (true, g')) := by
  refine ⟨fun h => by simp [moveDown, h],
          fun h1 h2 => by simp [moveDown, h1, h2],
          fun h1 h2 => by simp [moveDown, h1, h2],
          fun g' h => ?_⟩
  rcases hc1 : g.checkCol g.tetrimino.x (g.tetrimino.y - 1) g.tetrimino.minos with _ | c1
  · simp [moveDown, hc1] at h
  · cases c1 with
    | true =>
      have hg : g = g' := by simpa [moveDown, hc1] using h
      subst hg
      simp [moveDown, hc1]
    | false =>
      rcases hc2 : g.checkCol g.tetrimino.x (g.tetrimino.y - 2) g.tetrimino.minos with _ | c2
      · simp [moveDown, hc1, hc2] at h
      · cases c2 with
        | false => simp [moveDown, hc1, hc2] at h
        | true =>
          have hg : g.pieceDown = g' := by simpa [moveDown, hc1, hc2] using h
          subst hg
          have hyy : g.tetrimino.center.2 - 1 - 1 = g.tetrimino.center.2 - 2 := by ring
          have hc1' : g.pieceDown.checkCol g.pieceDown.tetrimino.x
              (g.pieceDown.tetrimino.y - 1) g.pieceDown.tetrimino.minos = some true := by
            simpa [Tetris.pieceDown, Tetris.checkCol, Tetrimino.x, Tetrimino.y, hyy]
              using hc2
          simp [moveDown, hc1']

/-- C5 witness: an O piece on the floor reports "landed" without moving. -/
theorem moveDown_spec_witness : moveDown gMoveDown = some (true, gMoveDown) :=
  (moveDown_spec gMoveDown).1 (by decide)

/-- Helper: mapping the clockwise mino transform and then the counter-
    clockwise one is the identity on offset lists. -/
theorem rotMapCWCCW (l : List Vec2) :
    (l.map fun v => ((v.2 : Int), -v.1)).map (fun v => (-v.2, v.1)) = l := by
  induction l with
  | nil => rfl
  | cons v r ih => simp [ih]

/-- Helper: mapping the counterclockwise mino transform and then the
    clockwise one is the identity on offset lists. -/
theorem rotMapCCWCW (l : List Vec2) :
    (l.map fun v => ((-v.2 : Int), v.1)).map (fun v => (v.2, -v.1)) = l := by
  induction l with
  | nil => rfl
  | cons v r ih => simp [ih]

/-- Helper: undoing a clockwise mino rotation with a counterclockwise one
    restores the piece exactly (minos and facing). -/
theorem rotCW_then_CCW (t : Tetrimino) : t.rotateMinosCW.rotateMinosCCW = t := by
  have hf : ∀ f : Facing, f + 1 + 3 = f := by decide
  cases t with
  | mk s m c f =>
    simp [Tetrimino.rotateMinosCW, Tetrimino.rotateMinosCCW, List.map_map, hf]
    have := rotMapCWCCW m
    simpa [List.map_map] using this

/-- Helper: undoing a counterclockwise mino rotation with a clockwise one
    restores the piece exactly (minos and facing). -/
theorem rotCCW_then_CW (t : Tetrimino) : t.rotateMinosCCW.rotateMinosCW = t := by
  have hf : ∀ f : Facing, f + 3 + 1 = f := by decide
  cases t with
  | mk s m c f =>
    simp [Tetrimino.rotateMinosCW, Tetrimino.rotateMinosCCW, List.map_map, hf]
    have := rotMapCCWCW m
    simpa [List.map_map] using this

/-- Helper: the undo rotation inverts the rotation a direction selects. -/
theorem rotDirInv_rotDir (dir : Rotation) (t : Tetrimino) :
    rotDirInv dir (rotDir dir t) = t := by
  cases dir
  · exact rotCW_then_CCW t
  · exact rotCCW_then_CW t

/-- Helper: rotating the minos never changes the shape. -/
theorem rotDir_shape (dir : Rotation) (t : Tetrimino) :
    (rotDir dir t).shape = t.shape := by
  cases dir <;> rfl

/-- Helper: rotating the minos never changes the center. -/
theorem rotDir_center (dir : Rotation) (t : Tetrimino) :
    (rotDir dir t).center = t.center := by
  cases dir <;> rfl

/-- Helper: full case analysis of `Tetrimino.rotate` — on failure the piece
    is exactly restored, on success the minos/facing are the rotated ones
    and the center is translated by the winning kick found by the SRS tests. -/
theorem rotatePiece_cases (w : ℕ) (m : GameMatrix) (dir : Rotation)
    (t : Tetrimino) (b : Bool) (t' : Tetrimino)
    (h : rotatePiece w m dir t = some (b, t')) :
    (b = false → t' = t) ∧
    (b = true →
      t'.shape = t.shape ∧
      t'.minos = (rotDir dir t).minos ∧
      t'.facing = (rotDir dir t).facing ∧
      findKick w m (rotDir dir t) t.facing (rotDir dir t).facing
          (SRSOffsetsOf t.shape) =
        some (some (t'.x - t.x, t'.y - t.y))) := by
  rw [rotatePiece] at h
  split at h
  · cases h
  · next heq =>
    have h' : false = b ∧ rotDirInv dir (rotDir dir t) = t' := by simpa using h
    obtain ⟨hb, ht⟩ := h'
    subst hb
    exact ⟨fun _ => (by rw [← ht, rotDirInv_rotDir]), fun htr => (by cases htr)⟩
  · next k heq =>
    have h' : true = b ∧
        ({ rotDir dir t with
            center := ((rotDir dir t).x + k.1, (rotDir dir t).y + k.2) } : Tetrimino) = t' := by
      simpa using h
    obtain ⟨hb, ht⟩ := h'
    subst hb
    subst ht
    refine ⟨fun htr => (by cases htr), fun _ => ⟨?_, rfl, rfl, ?_⟩⟩
    · show (rotDir dir t).shape = t.shape
      exact rotDir_shape dir t
    · rw [rotDir_shape] at heq
      have hx : (rotDir dir t).x = t.x := by
        simp [Tetrimino.x, rotDir_center]
      have hy : (rotDir dir t).y = t.y := by
        simp [Tetrimino.y, rotDir_center]
      have hk : (({ rotDir dir t with
          center := ((rotDir dir t).x + k.1, (rotDir dir t).y + k.2) } : Tetrimino).x - t.x,
        ({ rotDir dir t with
          center := ((rotDir dir t).x + k.1, (rotDir dir t).y + k.2) } : Tetrimino).y - t.y) = k := by
        show ((rotDir dir t).x + k.1 - t.x, (rotDir dir t).y + k.2 - t.y) = k
        rw [hx, hy]
        simp
      rw [hk]
      exact heq

/-- C3: rotation is transactional.  If no kick of the SRS resolution
    succeeds the call reports failure and the whole engine state — matrix,
    the piece's facing, its relative offsets, and its center — is exactly
    the pre-call state; if a kick succeeds the call reports success, the
    piece carries the rotated offsets and facing, and the only position
    change is the winning kick's translation of the center (everything else
    in the engine state is untouched). -/
theorem rotate_transactional (dir : Rotation) (g : Tetris) (b : Bool) (g' : Tetris)
    (hres : rotateGame dir g = some (b, g')) :
    (b = false → g' = g) ∧
    (b = true →
      g'.matrix = g.matrix ∧ g'.cfg = g.cfg ∧ g'.nextTetrimino = g.nextTetrimino ∧
      g'.heldTetrimino = g.heldTetrimino ∧ g'.score = g.score ∧ g'.level = g.level ∧
      g'.highScore = g.highScore ∧ g'.genBag = g.genBag ∧ g'.bagIndex = g.bagIndex ∧
      g'.canHold = g.canHold ∧
      g'.tetrimino.shape = g.tetrimino.shape ∧
      g'.tetrimino.minos = (rotDir dir g.tetrimino).minos ∧
      g'.tetrimino.facing = (rotDir dir g.tetrimino).facing ∧
      findKick g.cfg.matrixWidth g.matrix (rotDir dir g.tetrimino) g.tetrimino.facing
          (rotDir dir g.tetrimino).facing (SRSOffsetsOf g.tetrimino.shape) =
        some (some (g'.tetrimino.x - g.tetrimino.x, g'.tetrimino.y - g.tetrimino.y))) := by
  rcases hrp : rotatePiece g.cfg.matrixWidth g.matrix dir g.tetrimino with _ | bt
  · rw [rotateGame, hrp] at hres
    cases hres
  · obtain ⟨b0, t'⟩ := bt
    rw [rotateGame, hrp] at hres
    have h' : b0 = b ∧ ({ g with tetrimino := t' } : Tetris) = g' := by simpa using hres
    obtain ⟨hb, hg⟩ := h'
    subst hb
    subst hg
    obtain ⟨hfail, hsucc⟩ := rotatePiece_cases _ _ _ _ _ _ hrp
    constructor
    · intro hb0
      rw [hfail hb0]
    · intro hb0
      obtain ⟨hs, hm, hf, hk⟩ := hsucc hb0
      exact ⟨rfl, rfl, rfl, rfl, rfl, rfl, rfl, rfl, rfl, rfl, hs, hm, hf, hk⟩

/-- C3 witness: in `gRotFail` every SRS test point collides, and the failed
    clockwise rotation hands back exactly the pre-call state. -/
theorem rotate_transactional_witness :
    ((rotateGame Rotation.CW gRotFail).getD (true, gRotFail)).2 = gRotFail :=
  (rotate_transactional Rotation.CW gRotFail false
    ((rotateGame Rotation.CW gRotFail).getD (true, gRotFail)).2 (by decide)).1 rfl

/-- Helper: `findKick` succeeds with kick `k` exactly when some row index
    `i` yields a clean probe with kick `k` while every earlier row's probe
    collides (first-success semantics of the SRS loop). -/
theorem findKick_success_iff (w : ℕ) (m : GameMatrix) (t : Tetrimino)
    (oldF newF : Facing) (k : Vec2) :
    ∀ rows : List OffRow,
      findKick w m t oldF newF rows = some (some k) ↔
        ∃ i row, rows.get? i = some row ∧ k = rowKick row oldF newF ∧
          kickProbe w m t (rowKick row oldF newF) = some false ∧
          ∀ j row', j < i → rows.get? j = some row' →
            kickProbe w m t (rowKick row' oldF newF) = some true := by
  intro rows
  induction rows with
  | nil => simp [findKick]
  | cons row rest ih =>
    rw [findKick]
    rcases hp : kickProbe w m t (rowKick row oldF newF) with _ | c
    · constructor
      · intro h
        cases h
      · rintro ⟨i, row', hget, hk, hpr, hall⟩
        cases i with
        | zero =>
          rw [List.get?_cons_zero, Option.some.injEq] at hget
          subst hget
          rw [hp] at hpr
          cases hpr
        | succ j =>
          have h0 := hall 0 row (Nat.succ_pos j) List.get?_cons_zero
          rw [hp] at h0
          cases h0
    · cases c with
      | true =>
        rw [ih]
        constructor
        · rintro ⟨i, row', hget, hk, hpr, hall⟩
          refine ⟨i + 1, row', by simpa using hget, hk, hpr, ?_⟩
          intro j rj hj hgj
          cases j with
          | zero =>
            rw [List.get?_cons_zero, Option.some.injEq] at hgj
            subst hgj
            exact hp
          | succ j' =>
            exact hall j' rj (Nat.lt_of_succ_lt_succ hj) (by simpa using hgj)
        · rintro ⟨i, row', hget, hk, hpr, hall⟩
          cases i with
          | zero =>
            rw [List.get?_cons_zero, Option.some.injEq] at hget
            subst hget
            rw [hp] at hpr
            cases hpr
          | succ i' =>
            refine ⟨i', row', by simpa using hget, hk, hpr, ?_⟩
            intro j rj hj hgj
            exact hall (j + 1) rj (Nat.succ_lt_succ hj) (by simpa using hgj)
      | false =>
        constructor
        · intro h
          rw [Option.some.injEq, Option.some.injEq] at h
          exact ⟨0, row, List.get?_cons_zero, h.symm, hp,
            fun j rj hj _ => absurd hj (Nat.not_lt_zero j)⟩
        · rintro ⟨i, row', hget, hk, hpr, hall⟩
          cases i with
          | zero =>
            rw [List.get?_cons_zero, Option.some.injEq] at hget
            subst hget
            rw [hk]
          | succ i' =>
            have h0 := hall 0 row (Nat.succ_pos i') List.get?_cons_zero
            rw [hp] at h0
            cases h0

/-- Helper: `findKick` reports failure exactly when every row's probe
    collides. -/
theorem findKick_fail_iff (w : ℕ) (m : GameMatrix) (t : Tetrimino)
    (oldF newF : Facing) :
    ∀ rows : List OffRow,
      findKick w m t oldF newF rows = some none ↔
        ∀ i row, rows.get? i = some row →
          kickProbe w m t (rowKick row oldF newF) = some true := by
  intro rows
  induction rows with
  | nil => simp [findKick]
  | cons row rest ih =>
    rw [findKick]
    rcases hp : kickProbe w m t (rowKick row oldF newF) with _ | c
    · constructor
      · intro h
        cases h
      · intro hall
        have h0 := hall 0 row List.get?_cons_zero
        rw [hp] at h0
        cases h0
    · cases c with
      | true =>
        rw [ih]
        constructor
        · intro hall
          intro i rj hget
          cases i with
          | zero =>
            rw [List.get?_cons_zero, Option.some.injEq] at hget
            subst hget
            exact hp
          | succ i' =>
            exact hall i' rj (by simpa using hget)
        · intro hall i rj hget
          exact hall (i + 1) rj (by simpa using hget)
      | false =>
        constructor
        · intro h
          cases h
        · intro hall
          have h0 := hall 0 row List.get?_cons_zero
          rw [hp] at h0
          cases h0

/-- C4: the SRS resolution tests the shape's kick-table rows in index order
    (1 row for O, 5 for I and for T/L/J/S/Z), each kick computed as
    `offsetTable[row][oldFacing] - offsetTable[row][newFacing]` and probed
    as a collision of the already-rotated offsets translated by that kick;
    it applies the first clean row and succeeds immediately, and fails iff
    every row collides. -/
theorem srs_resolution (w : ℕ) (m : GameMatrix) (t : Tetrimino)
    (oldF newF : Facing) (rows : List OffRow) (k : Vec2) :
    ((SRSOffsetsOf .O).length = 1 ∧ (SRSOffsetsOf .I).length = 5 ∧
      (SRSOffsetsOf .T).length = 5 ∧ (SRSOffsetsOf .L).length = 5 ∧
      (SRSOffsetsOf .J).length = 5 ∧ (SRSOffsetsOf .S).length = 5 ∧
      (SRSOffsetsOf .Z).length = 5) ∧
    (findKick w m t oldF newF rows = some (some k) ↔
      ∃ i row, rows.get? i = some row ∧ k = rowKick row oldF newF ∧
        kickProbe w m t (rowKick row oldF newF) = some false ∧
        ∀ j row', j < i → rows.get? j = some row' →
          kickProbe w m t (rowKick row' oldF newF) = some true) ∧
    (findKick w m t oldF newF rows = some none ↔
      ∀ i row, rows.get? i = some row →
        kickProbe w m t (rowKick row oldF newF) = some true) :=
  ⟨⟨rfl, rfl, rfl, rfl, rfl, rfl, rfl⟩,
    findKick_success_iff w m t oldF newF k rows,
    findKick_fail_iff w m t oldF newF rows⟩

/-- C4 witness: the O piece's single test row applied to a freshly rotated
    O piece at the origin yields the kick (0, 1) on the first (and only)
    row. -/
theorem srs_resolution_witness :
    findKick 2 gRotO.matrix (rotDir .CW gRotO.tetrimino) 0 1 (SRSOffsetsOf .O) =
      some (some (0, 1)) :=
  ((srs_resolution 2 gRotO.matrix (rotDir .CW gRotO.tetrimino) 0 1
      (SRSOffsetsOf .O) (0, 1)).2.1).mpr
    ⟨0, ((0, 0), (0, -1), (-1, -1), (-1, 0)), rfl, by decide, by decide,
      fun j rj hj _ => absurd hj (Nat.not_lt_zero j)⟩

/-- Helper: four applications of the clockwise mino transform are the
    identity. -/
theorem rotMap4CW (l : List Vec2) :
    ((((l.map fun v => ((v.2 : Int), -v.1)).map fun v => ((v.2 : Int), -v.1)).map
        fun v => ((v.2 : Int), -v.1)).map fun v => ((v.2 : Int), -v.1)) = l := by
  induction l with
  | nil => rfl
  | cons v r ih =>
    simp only [List.map_cons]
    rw [ih]
    simp

/-- Helper: four applications of the counterclockwise mino transform are the
    identity. -/
theorem rotMap4CCW (l : List Vec2) :
    ((((l.map fun v => ((-v.2 : Int), v.1)).map fun v => ((-v.2 : Int), v.1)).map
        fun v => ((-v.2 : Int), v.1)).map fun v => ((-v.2 : Int), v.1)) = l := by
  induction l with
  | nil => rfl
  | cons v r ih =>
    simp only [List.map_cons]
    rw [ih]
    simp

/-- C9: four successful rotations in the same direction restore the
    original facing and the original relative offsets exactly; the center
    moves by exactly the sum of the four applied kicks, so it too is
    restored whenever the four kicks cancel (in particular when no kick was
    needed). -/
theorem rotate_four_roundtrip (w : ℕ) (m : GameMatrix) (dir : Rotation)
    (t0 t1 t2 t3 t4 : Tetrimino)
    (h1 : rotatePiece w m dir t0 = some (true, t1))
    (h2 : rotatePiece w m dir t1 = some (true, t2))
    (h3 : rotatePiece w m dir t2 = some (true, t3))
    (h4 : rotatePiece w m dir t3 = some (true, t4)) :
    t4.facing = t0.facing ∧ t4.minos = t0.minos ∧
    ((t1.center - t0.center) + (t2.center - t1.center) + (t3.center - t2.center) +
        (t4.center - t3.center) = ((0 : Int), (0 : Int)) → t4.center = t0.center) := by
  obtain ⟨-, hs1⟩ := rotatePiece_cases w m dir t0 true t1 h1
  obtain ⟨-, hm1, hf1, -⟩ := hs1 rfl
  obtain ⟨-, hs2⟩ := rotatePiece_cases w m dir t1 true t2 h2
  obtain ⟨-, hm2, hf2, -⟩ := hs2 rfl
  obtain ⟨-, hs3⟩ := rotatePiece_cases w m dir t2 true t3 h3
  obtain ⟨-, hm3, hf3, -⟩ := hs3 rfl
  obtain ⟨-, hs4⟩ := rotatePiece_cases w m dir t3 true t4 h4
  obtain ⟨-, hm4, hf4, -⟩ := hs4 rfl
  refine ⟨?_, ?_, ?_⟩
  · cases dir with
    | CW =>
      have e1 : t1.facing = t0.facing + 1 := by
        simpa [rotDir, Tetrimino.rotateMinosCW] using hf1
      have e2 : t2.facing = t1.facing + 1 := by
        simpa [rotDir, Tetrimino.rotateMinosCW] using hf2
      have e3 : t3.facing = t2.facing + 1 := by
        simpa [rotDir, Tetrimino.rotateMinosCW] using hf3
      have e4 : t4.facing = t3.facing + 1 := by
        simpa [rotDir, Tetrimino.rotateMinosCW] using hf4
      rw [e4, e3, e2, e1]
      exact (by decide : ∀ f : Facing, f + 1 + 1 + 1 + 1 = f) t0.facing
    | CCW =>
      have e1 : t1.facing = t0.facing + 3 := by
        simpa [rotDir, Tetrimino.rotateMinosCCW] using hf1
      have e2 : t2.facing = t1.facing + 3 := by
        simpa [rotDir, Tetrimino.rotateMinosCCW] using hf2
      have e3 : t3.facing = t2.facing + 3 := by
        simpa [rotDir, Tetrimino.rotateMinosCCW] using hf3
      have e4 : t4.facing = t3.facing + 3 := by
        simpa [rotDir, Tetrimino.rotateMinosCCW] using hf4
      rw [e4, e3, e2, e1]
      exact (by decide : ∀ f : Facing, f + 3 + 3 + 3 + 3 = f) t0.facing
  · cases dir with
    | CW =>
      have e1 : t1.minos = t0.minos.map fun v => ((v.2 : Int), -v.1) := by
        simpa [rotDir, Tetrimino.rotateMinosCW] using hm1
      have e2 : t2.minos = t1.minos.map fun v => ((v.2 : Int), -v.1) := by
        simpa [rotDir, Tetrimino.rotateMinosCW] using hm2
      have e3 : t3.minos = t2.minos.map fun v => ((v.2 : Int), -v.1) := by
        simpa [rotDir, Tetrimino.rotateMinosCW] using hm3
      have e4 : t4.minos = t3.minos.map fun v => ((v.2 : Int), -v.1) := by
        simpa [rotDir, Tetrimino.rotateMinosCW] using hm4
      rw [e4, e3, e2, e1]
      exact rotMap4CW t0.minos
    | CCW =>
      have e1 : t1.minos = t0.minos.map fun v => ((-v.2 : Int), v.1) := by
        simpa [rotDir, Tetrimino.rotateMinosCCW] using hm1
      have e2 : t2.minos = t1.minos.map fun v => ((-v.2 : Int), v.1) := by
        simpa [rotDir, Tetrimino.rotateMinosCCW] using hm2
      have e3 : t3.minos = t2.minos.map fun v => ((-v.2 : Int), v.1) := by
        simpa [rotDir, Tetrimino.rotateMinosCCW] using hm3
      have e4 : t4.minos = t3.minos.map fun v => ((-v.2 : Int), v.1) := by
        simpa [rotDir, Tetrimino.rotateMinosCCW] using hm4
      rw [e4, e3, e2, e1]
      exact rotMap4CCW t0.minos
  · intro hsum
    have hx := congrArg Prod.fst hsum
    have hy := congrArg Prod.snd hsum
    simp only [Prod.fst_add, Prod.snd_add, Prod.fst_sub, Prod.snd_sub] at hx hy
    have hgx : t4.center.1 = t0.center.1 := by omega
    have hgy : t4.center.2 = t0.center.2 := by omega
    exact Prod.ext hgx hgy

/-- C9 witness: a free T piece rotated clockwise four times returns to its
    original facing and offsets. -/
theorem rotate_four_roundtrip_witness :
    t9e.facing = t9a.facing ∧ t9e.minos = t9a.minos :=
  have h := rotate_four_roundtrip 5 (mkMatrix 5 5) Rotation.CW t9a t9b t9c t9d t9e
    (by decide) (by decide) (by decide) (by decide)
  ⟨h.1, h.2.1⟩

/-- Helper: full characterization of the `clearLine` shift loop.  Rows from
    `y` through `height-1` take the previous contents of the row above;
    all other rows (in particular the buffer above `height-1`) are
    untouched, and the number of rows is preserved. -/
theorem clearRowsGo_spec :
    ∀ (n : ℕ) (m : GameMatrix) (y : ℕ), y + n < m.length →
    ∃ m', clearRowsGo n m y = some m' ∧ m'.length = m.length ∧
      ∀ r : ℕ, m'.get? r = if y ≤ r ∧ r < y + n then m.get? (r + 1) else m.get? r := by
  intro n
  induction n with
  | zero =>
    intro m y hlen
    refine ⟨m, rfl, rfl, ?_⟩
    intro r
    rw [if_neg (by omega)]
  | succ n ihn =>
    intro m y hlen
    have hy1 : y + 1 < m.length := by omega
    have hrow : m.get? (y + 1) = some (m.get ⟨y + 1, hy1⟩) := List.get?_eq_get hy1
    obtain ⟨m', hloop, hlen', hchar⟩ := ihn (m.set y (m.get ⟨y + 1, hy1⟩)) (y + 1)
      (by rw [List.length_set]; omega)
    refine ⟨m', ?_, ?_, ?_⟩
    · rw [clearRowsGo, hrow]
      exact hloop
    · rw [hlen', List.length_set]
    · intro r
      rw [hchar r]
      by_cases hr1 : y + 1 ≤ r ∧ r < y + 1 + n
      · rw [if_pos hr1, if_pos (by omega)]
        rw [List.get?_eq_getElem?, List.get?_eq_getElem?,
          List.getElem?_set_ne (by omega)]
      · rw [if_neg hr1]
        by_cases hry : r = y
        · subst hry
          rw [if_pos (by omega)]
          rw [List.get?_eq_getElem?, List.getElem?_set_eq_of_lt _ (by omega), ← hrow]
        · rw [if_neg (by omega)]
          rw [List.get?_eq_getElem?, List.get?_eq_getElem?,
            List.getElem?_set_ne (by omega)]

/-- Helper: the same characterization phrased on `clearRowsLoop` with the
    playable height as the bound. -/
theorem clearRowsLoop_spec (m : GameMatrix) (y h : ℕ) (hlen : h < m.length) :
    ∃ m', clearRowsLoop m y h = some m' ∧ m'.length = m.length ∧
      ∀ r : ℕ, m'.get? r = if y ≤ r ∧ r < h then m.get? (r + 1) else m.get? r := by
  by_cases hyh : y ≤ h
  · obtain ⟨m', hloop, hlen', hchar⟩ := clearRowsGo_spec (h - y) m y (by omega)
    refine ⟨m', ?_, hlen', ?_⟩
    · rw [clearRowsLoop]
      exact hloop
    · intro r
      rw [hchar r]
      by_cases hc : y ≤ r ∧ r < h
      · rw [if_pos (by omega), if_pos hc]
      · rw [if_neg (by omega), if_neg hc]
  · refine ⟨m, ?_, rfl, ?_⟩
    · rw [clearRowsLoop, Nat.sub_eq_zero_of_le (by omega)]
      rfl
    · intro r
      rw [if_neg (by omega)]

/-- C6: `clearLine(y)` for a playable row `y` shifts every row from `y`
    through `height-1` down from the row above (the topmost playable row is
    refilled from the first buffer row), leaves all rows at or above
    `height` and below `y` untouched, increments the cleared-line counter
    by exactly one, and recomputes the level. -/
theorem clearLine_spec (y : ℕ) (g g' : Tetris)
    (hy : y < g.cfg.matrixHeight)
    (hlen : g.cfg.matrixHeight < g.matrix.length)
    (hres : clearLine y g = some g') :
    (∀ r, y ≤ r → r < g.cfg.matrixHeight → g'.matrix.get? r = g.matrix.get? (r + 1)) ∧
    (∀ r, g.cfg.matrixHeight ≤ r → g'.matrix.get? r = g.matrix.get? r) ∧
    (∀ r, r < y → g'.matrix.get? r = g.matrix.get? r) ∧
    g'.matrix.get? (g.cfg.matrixHeight - 1) = g.matrix.get? g.cfg.matrixHeight ∧
    g'.score = g.score + 1 ∧
    g'.level = min (1 + (g.score + 1) / g.cfg.linesPerLevel) g.cfg.maxLevel := by
  obtain ⟨m', hloop, hlen', hchar⟩ :=
    clearRowsLoop_spec g.matrix y g.cfg.matrixHeight hlen
  rw [clearLine, hloop] at hres
  have hg : ({ g with
      matrix := m'
      score := g.score + 1
      highScore := if g.score + 1 > g.highScore then g.score + 1 else g.highScore
      level := min (1 + (g.score + 1) / g.cfg.linesPerLevel) g.cfg.maxLevel } : Tetris)
      = g' := by
    simpa using hres
  subst hg
  refine ⟨?_, ?_, ?_, ?_, rfl, rfl⟩
  · intro r hr1 hr2
    rw [hchar r, if_pos ⟨hr1, hr2⟩]
  · intro r hr
    rw [hchar r, if_neg (by omega)]
  · intro r hr
    rw [hchar r, if_neg (by omega)]
  · rw [hchar (g.cfg.matrixHeight - 1), if_pos (by omega)]
    congr 1
    omega

/-- C6 witness: clearing the full bottom row of `gClear` moves the block
    row down, empties the top playable row, and bumps counter and level. -/
theorem clearLine_spec_witness :
    ((clearLine 0 gClear).getD gClear).matrix.get? 0 = gClear.matrix.get? 1 ∧
    ((clearLine 0 gClear).getD gClear).score = gClear.score + 1 :=
  have h := clearLine_spec 0 gClear ((clearLine 0 gClear).getD gClear)
    (by decide) (by decide) (by decide)
  ⟨h.1 0 (Nat.le_refl 0) (by decide), h.2.2.2.2.1⟩


/-- Helper: effect of a sequence of `clearLine` calls — config preserved,
    matrix size preserved, counter raised by the number of clears, and the
    level left at the recomputed value of the last clear. -/
theorem iterClear_spec :
    ∀ (ys : List ℕ) (g g' : Tetris),
      g.cfg.matrixHeight < g.matrix.length →
      iterClear ys g = some g' →
      g'.cfg = g.cfg ∧ g'.matrix.length = g.matrix.length ∧
      g'.score = g.score + ys.length ∧
      (ys ≠ [] →
        g'.level = min (1 + (g.score + ys.length) / g.cfg.linesPerLevel) g.cfg.maxLevel) ∧
      (ys = [] → g' = g) := by
  intro ys
  induction ys with
  | nil =>
    intro g g' hlen hres
    have hg : g = g' := by simpa [iterClear] using hres
    subst hg
    exact ⟨rfl, rfl, by simp, fun hne => absurd rfl hne, fun _ => rfl⟩
  | cons y ys ih =>
    intro g g' hlen hres
    rw [iterClear] at hres
    rcases hc : clearLine y g with _ | g1
    · rw [hc] at hres
      cases hres
    · rw [hc] at hres
      obtain ⟨m', hloop, hlen', -⟩ := clearRowsLoop_spec g.matrix y g.cfg.matrixHeight hlen
      rw [clearLine, hloop] at hc
      have hg1 : ({ g with
          matrix := m'
          score := g.score + 1
          highScore := if g.score + 1 > g.highScore then g.score + 1 else g.highScore
          level := min (1 + (g.score + 1) / g.cfg.linesPerLevel) g.cfg.maxLevel } : Tetris)
          = g1 := by
        simpa using hc
      have hcfg1 : g1.cfg = g.cfg := by rw [← hg1]
      have hmat1 : g1.matrix.length = g.matrix.length := by
        rw [← hg1]
        exact hlen'
      have hscore1 : g1.score = g.score + 1 := by rw [← hg1]
      have hlev1 : g1.level =
          min (1 + (g.score + 1) / g.cfg.linesPerLevel) g.cfg.maxLevel := by
        rw [← hg1]
      obtain ⟨hcfg, hmat, hscore, hlev, hnil⟩ := ih g1 g'
        (by rw [hcfg1, hmat1]; exact hlen) hres
      refine ⟨hcfg.trans hcfg1, hmat.trans hmat1, ?_, fun _ => ?_, fun hx => (by cases hx)⟩
      · rw [hscore, hscore1, List.length_cons]
        omega
      · by_cases hys : ys = []
        · subst hys
          rw [hnil rfl, hlev1, List.length_cons]
          simp
        · rw [hlev hys, hscore1, hcfg1, List.length_cons]
          have harg : g.score + 1 + ys.length = g.score + (ys.length + 1) := by omega
          rw [harg]

/-- C7: after every `clearLine` the level equals
    `min(maxLevel, 1 + ⌊linesCleared / linesPerLevel⌋)` (the counter here is
    `score`, which counts cleared lines); across any sequence of clears the
    level never decreases and never exceeds `maxLevel`, and a further
    `linesPerLevel` cumulative clears raise the uncapped level by exactly
    one. -/
theorem level_progression (g g₁ g₂ : Tetris) (ys₁ ys₂ : List ℕ)
    (hL : 0 < g.cfg.linesPerLevel)
    (hlen : g.cfg.matrixHeight < g.matrix.length)
    (hne : ys₁ ≠ [])
    (hpre : ys₁.length ≤ ys₂.length)
    (h₁ : iterClear ys₁ g = some g₁)
    (h₂ : iterClear ys₂ g = some g₂) :
    g₁.level = min (1 + (g.score + ys₁.length) / g.cfg.linesPerLevel) g.cfg.maxLevel ∧
    g₁.level ≤ g.cfg.maxLevel ∧
    g₁.level ≤ g₂.level ∧
    (ys₂.length = ys₁.length + g.cfg.linesPerLevel →
      g₂.level =
        min ((1 + (g.score + ys₁.length) / g.cfg.linesPerLevel) + 1) g.cfg.maxLevel) := by
  obtain ⟨-, -, -, hlev₁, -⟩ := iterClear_spec ys₁ g g₁ hlen h₁
  obtain ⟨-, -, -, hlev₂, -⟩ := iterClear_spec ys₂ g g₂ hlen h₂
  have hne₂ : ys₂ ≠ [] := by
    intro hx
    have hpos : 0 < ys₁.length := List.length_pos.mpr hne
    rw [hx] at hpre
    have hz : ([] : List ℕ).length = 0 := rfl
    rw [hz] at hpre
    omega
  have e₁ := hlev₁ hne
  have e₂ := hlev₂ hne₂
  refine ⟨e₁, ?_, ?_, ?_⟩
  · rw [e₁]
    exact min_le_right _ _
  · rw [e₁, e₂]
    exact min_le_min
      (Nat.add_le_add_left (Nat.div_le_div_right (by omega)) 1) le_rfl
  · intro hstep
    rw [e₂, hstep]
    have harg : g.score + (ys₁.length + g.cfg.linesPerLevel) =
        (g.score + ys₁.length) + g.cfg.linesPerLevel := by omega
    rw [harg, Nat.add_div_right _ hL]
    have : 1 + ((g.score + ys₁.length) / g.cfg.linesPerLevel + 1) =
        (1 + (g.score + ys₁.length) / g.cfg.linesPerLevel) + 1 := by omega
    rw [this]

/-- C7 witness: one clear of the bottom row of `gClear` leaves the level at
    the recomputed value. -/
theorem level_progression_witness :
    ((iterClear [0] gClear).getD gClear).level =
      min (1 + (gClear.score + 1) / gClear.cfg.linesPerLevel) gClear.cfg.maxLevel :=
  (level_progression gClear ((iterClear [0] gClear).getD gClear)
      ((iterClear [0, 0] gClear).getD gClear) [0] [0, 0]
      (by decide) (by decide) (by decide) (by decide) (by decide) (by decide)).1

/-- C10: when hold has already been used (`canHold = false`), `hold()`
    returns `false` and the whole engine state is unchanged; immediately
    after a successful `hold()` a second `hold()` returns `false` with no
    state change; `swapNextTetrimino` (promotion of the next piece) is what
    re-enables holding, and none of the other mutating operations
    (`moveDown`, `moveX`, rotation, `clearLine`, `lockDown`) touches the
    hold permission. -/
theorem hold_gated (js js' : ℕ → ℕ) (g : Tetris) :
    (g.canHold = false → hold js g = some (false, g)) ∧
    (∀ g', hold js g = some (true, g') → hold js' g' = some (false, g')) ∧
    (∀ g'', swapNextTetrimino js g = some g'' → g''.canHold = true) ∧
    (∀ b g', moveDown g = some (b, g') → g'.canHold = g.canHold) ∧
    (∀ dx b g', moveX dx g = some (b, g') → g'.canHold = g.canHold) ∧
    (∀ dir b g', rotateGame dir g = some (b, g') → g'.canHold = g.canHold) ∧
    (∀ y g', clearLine y g = some g' → g'.canHold = g.canHold) ∧
    (∀ g', lockDownGame g = some g' → g'.canHold = g.canHold) := by
  refine ⟨?_, ?_, ?_, ?_, ?_, ?_, ?_, ?_⟩
  · intro h
    rw [hold, h]
    rfl
  · intro g' h
    have hch : g'.canHold = false := by
      rcases hcv : g.canHold with _ | _
      · rw [hold, hcv] at h
        simp at h
      · rw [hold, hcv] at h
        rcases hh : g.heldTetrimino with _ | held
        · rw [hh] at h
          rcases hd : drawFromBag js g.genBag g.bagIndex with _ | tb
          · rw [hd] at h
            simp at h
          · rw [hd] at h
            simp only [if_true, Option.map_some', Option.some.injEq, Prod.mk.injEq] at h
            rw [← h.2]
        · rw [hh] at h
          simp only [if_true, Option.some.injEq, Prod.mk.injEq] at h
          rw [← h.2]
    rw [hold, hch]
    rfl
  · intro g'' h
    rcases hd : drawFromBag js g.genBag g.bagIndex with _ | tb
    · rw [swapNextTetrimino, hd] at h
      cases h
    · rw [swapNextTetrimino, hd] at h
      simp only [Option.map_some', Option.some.injEq] at h
      rw [← h]
  · intro b g' h
    rcases hc1 : g.checkCol g.tetrimino.x (g.tetrimino.y - 1) g.tetrimino.minos with _ | c1
    · rw [moveDown, hc1] at h
      cases h
    · rw [moveDown, hc1] at h
      cases c1 with
      | true =>
        simp only [Option.some_bind, if_true] at h
        obtain ⟨-, hg⟩ : true = b ∧ g = g' := by simpa using h
        rw [← hg]
      | false =>
        simp only [Option.some_bind, if_false] at h
        rcases hc2 : g.checkCol g.tetrimino.x (g.tetrimino.y - 2) g.tetrimino.minos with _ | c2
        · rw [hc2] at h
          cases h
        · rw [hc2] at h
          have : (if c2 then (true, g.pieceDown) else (false, g.pieceDown)) = (b, g') := by
            simpa using h
          have hg : g' = g.pieceDown := by
            rcases c2 <;> simpa using congrArg Prod.snd this.symm
          rw [hg]
          rfl
  · intro dx b g' h
    rw [moveX] at h
    rcases hc : g.checkCol (max 0 (min (g.tetrimino.x + dx) ((g.cfg.matrixWidth : Int) - 1)))
        g.tetrimino.y g.tetrimino.minos with _ | c
    · rw [hc] at h
      cases h
    · rw [hc] at h
      rcases c
      · obtain ⟨-, hg⟩ : true = b ∧ ({ g with tetrimino :=
            { g.tetrimino with center := (max 0 (min (g.tetrimino.x + dx)
              ((g.cfg.matrixWidth : Int) - 1)), g.tetrimino.y) } } : Tetris) = g' := by
          simpa using h
        rw [← hg]
      · obtain ⟨-, hg⟩ : false = b ∧ g = g' := by simpa using h
        rw [← hg]
  · intro dir b g' h
    rcases hrp : rotatePiece g.cfg.matrixWidth g.matrix dir g.tetrimino with _ | bt
    · rw [rotateGame, hrp] at h
      cases h
    · rw [rotateGame, hrp] at h
      obtain ⟨-, hg⟩ : bt.1 = b ∧ ({ g with tetrimino := bt.2 } : Tetris) = g' := by
        simpa using h
      rw [← hg]
  · intro y g' h
    rcases hm : clearRowsLoop g.matrix y g.cfg.matrixHeight with _ | m'
    · rw [clearLine, hm] at h
      cases h
    · rw [clearLine, hm] at h
      simp only [Option.map_some', Option.some.injEq] at h
      rw [← h]
  · intro g' h
    rcases hm : writeCells g.tetrimino.x g.tetrimino.y g.tetrimino.shape
        g.tetrimino.minos g.matrix with _ | m'
    · rw [lockDownGame, hm] at h
      cases h
    · rw [lockDownGame, hm] at h
      simp only [Option.map_some', Option.some.injEq] at h
      rw [← h]

/-- C10 witness: with hold spent, `hold()` reports `false` and hands back
    the state unchanged. -/
theorem hold_gated_witness :
    gHold.canHold = false ∧ hold (fun i => i) gHold = some (false, gHold) :=
  ⟨rfl, (hold_gated (fun i => i) (fun i => i) gHold).1 rfl⟩

/-- Helper: a successful cell write keeps the number of rows. -/
theorem writeCell_length (m m' : GameMatrix) (x y : Int) (s : TetriminoShape)
    (h : writeCell m x y s = some m') : m'.length = m.length := by
  rw [writeCell] at h
  split at h
  · rcases hr : m.get? y.toNat with _ | row
    · rw [hr] at h
      cases h
    · rw [hr] at h
      obtain hm := Option.some.inj h
      rw [← hm, List.length_set]
  · cases h

/-- Helper: a successful cell write keeps every row's width. -/
theorem writeCell_rows (w : ℕ) (m m' : GameMatrix) (x y : Int) (s : TetriminoShape)
    (h : writeCell m x y s = some m') (hw : ∀ row ∈ m, row.length = w) :
    ∀ row ∈ m', row.length = w := by
  rw [writeCell] at h
  split at h
  · rcases hr : m.get? y.toNat with _ | row
    · rw [hr] at h
      cases h
    · rw [hr] at h
      obtain hm := Option.some.inj h
      intro row' hmem
      rw [← hm] at hmem
      rcases List.mem_or_eq_of_mem_set hmem with hin | heq
    
      · exact hw row' hin
      · subst heq
        rw [writeRowCell]
        split
        · rw [List.length_set]
          exact hw row (List.get?_mem hr)
        · exact hw row (List.get?_mem hr)
  · cases h

/-- Helper: a successful in-width cell write makes the cell hold the shape. -/
theorem writeCell_sets (w : ℕ) (m m' : GameMatrix) (x y : Int) (s : TetriminoShape)
    (hx0 : 0 ≤ x) (hxw : x < (w : Int)) (hw : ∀ row ∈ m, row.length = w)
    (h : writeCell m x y s = some m') : getCell m' x y = some (some s) := by
  rw [writeCell] at h
  split at h
  · next hy =>
    rcases hr : m.get? y.toNat with _ | row
    · rw [hr] at h
      cases h
    · rw [hr] at h
      obtain hm := Option.some.inj h
      rw [writeRowCell, if_pos hx0] at hm
      obtain ⟨hylt, -⟩ := List.get?_eq_some.mp hr
      have hrow : row.length = w := hw row (List.get?_mem hr)
      have hxlt : x.toNat < row.length := by omega
      have h1 : m'.get? y.toNat = some (row.set x.toNat (some s)) := by
        rw [← hm, List.get?_eq_getElem?, List.getElem?_set_eq_of_lt _ (by omega)]
      have h2 : (row.set x.toNat (some s)).get? x.toNat = some (some s) := by
        rw [List.get?_eq_getElem?, List.getElem?_set_eq_of_lt _ hxlt]
      exact getCell_of_bounds hx0 hy h1 h2
  · cases h

/-- Helper: a successful cell write never erases an already-written shape
    cell (it writes the same shape or elsewhere). -/
theorem writeCell_keeps (m m' : GameMatrix) (x y x' y' : Int) (s : TetriminoShape)
    (h : writeCell m x y s = some m')
    (hprev : getCell m x' y' = some (some s)) : getCell m' x' y' = some (some s) := by
  rw [getCell] at hprev
  split at hprev
  · next hb =>
    obtain ⟨hy', hx'⟩ := hb
    rcases hr' : m.get? y'.toNat with _ | row'
    · rw [hr'] at hprev
      cases hprev
    · rw [hr'] at hprev
      simp only [Option.some_bind] at hprev
      rw [writeCell] at h
      split at h
      · next hy =>
        rcases hr : m.get? y.toNat with _ | row
        · rw [hr] at h
          cases h
        · rw [hr] at h
          obtain hm := Option.some.inj h
          obtain ⟨hylt, -⟩ := List.get?_eq_some.mp hr
          by_cases hyy : y'.toNat = y.toNat
          · have hrow : row' = row := by
              rw [hyy] at hr'
              exact Option.some.inj (hr'.symm.trans hr)
            subst hrow
            have h1 : m'.get? y'.toNat = some (writeRowCell row' x s) := by
              rw [← hm, hyy, List.get?_eq_getElem?, List.getElem?_set_eq_of_lt _ hylt]
            have h2 : (writeRowCell row' x s).get? x'.toNat = some (some s) := by
              rw [writeRowCell]
              split
              · next hx0 =>
                by_cases hxx : x'.toNat = x.toNat
                · by_cases hxlt : x.toNat < row'.length
                  · rw [hxx, List.get?_eq_getElem?, List.getElem?_set_eq_of_lt _ hxlt]
                  · rw [List.set_eq_of_length_le (by omega)]
                    exact hprev
                · rw [List.get?_eq_getElem?, List.getElem?_set_ne (by omega),
                    ← List.get?_eq_getElem?]
                  exact hprev
              · exact hprev
            exact getCell_of_bounds hx' hy' h1 h2
          · have h1 : m'.get? y'.toNat = some row' := by
              rw [← hm, List.get?_eq_getElem?, List.getElem?_set_ne (by omega),
                ← List.get?_eq_getElem?]
              exact hr'
            exact getCell_of_bounds hx' hy' h1 hprev
      · cases h
  · cases hprev

/-- Helper: the whole `lockDown` write loop never erases an already-written
    shape cell. -/
theorem writeCells_keeps (cx cy : Int) (s : TetriminoShape) :
    ∀ (minos : List Vec2) (m m₁ : GameMatrix) (x' y' : Int),
      writeCells cx cy s minos m = some m₁ →
      getCell m x' y' = some (some s) → getCell m₁ x' y' = some (some s) := by
  intro minos
  induction minos with
  | nil =>
    intro m m₁ x' y' h hprev
    obtain hm := Option.some.inj h
    rw [← hm]
    exact hprev
  | cons v rest ih =>
    intro m m₁ x' y' h hprev
    rw [writeCells] at h
    rcases hwc : writeCell m (cx + v.1) (cy + v.2) s with _ | m'
    · rw [hwc] at h
      cases h
    · rw [hwc] at h
      exact ih m' m₁ x' y' h (writeCell_keeps m m' _ _ x' y' s hwc hprev)

/-- Helper: full effect of the `lockDown` write loop — size and widths are
    preserved and every in-width mino cell ends up holding the shape. -/
theorem writeCells_spec (w : ℕ) (cx cy : Int) (s : TetriminoShape) :
    ∀ (minos : List Vec2) (m m₁ : GameMatrix),
      writeCells cx cy s minos m = some m₁ →
      (∀ row ∈ m, row.length = w) →
      m₁.length = m.length ∧ (∀ row ∈ m₁, row.length = w) ∧
      ∀ v ∈ minos, 0 ≤ cx + v.1 → cx + v.1 < (w : Int) →
        getCell m₁ (cx + v.1) (cy + v.2) = some (some s) := by
  intro minos
  induction minos with
  | nil =>
    intro m m₁ h hw
    obtain hm := Option.some.inj h
    rw [← hm]
    exact ⟨rfl, hw, fun v hv => absurd hv (List.not_mem_nil v)⟩
  | cons v rest ih =>
    intro m m₁ h hw
    rw [writeCells] at h
    rcases hwc : writeCell m (cx + v.1) (cy + v.2) s with _ | m'
    · rw [hwc] at h
      cases h
    · rw [hwc] at h
      obtain ⟨hlen, hrows, hcells⟩ := ih m' m₁ h (writeCell_rows w m m' _ _ s hwc hw)
      refine ⟨hlen.trans (writeCell_length m m' _ _ s hwc), hrows, ?_⟩
      intro u hu hu0 huw
      rcases List.mem_cons.mp hu with hveq | hurest
      · subst hveq
        exact writeCells_keeps cx cy s rest m' m₁ _ _ h
          (writeCell_sets w m m' _ _ s hu0 huw hw hwc)
      · exact hcells u hurest hu0 huw

/-- C1: the earlier engine's `lockDown()` writes each of the active piece's
    occupied cells into the matrix marked with the piece's shape, promotes
    the next piece to active, draws a new next piece from the bag, and
    repositions the new active piece at the spawn point with its rotation
    reset to North (facing North, initial offsets restored). -/
theorem lockDownV0_spec (js : ℕ → ℕ) (g g' : TetrisV0)
    (hrows : ∀ row ∈ g.matrix, row.length = g.cfg.matrixWidth)
    (hres : lockDownV0 js g = some g') :
    (∀ v ∈ g.tetrimino.minos,
        0 ≤ g.tetrimino.x + v.1 → g.tetrimino.x + v.1 < (g.cfg.matrixWidth : Int) →
        getCell g'.matrix (g.tetrimino.x + v.1) (g.tetrimino.y + v.2) =
          some (some g.tetrimino.shape)) ∧
    g'.tetrimino = spawnPieceV0 g.nextTetrimino ∧
    g'.tetrimino.shape = g.nextTetrimino.shape ∧
    g'.tetrimino.facing = 0 ∧
    g'.tetrimino.minos = MinosOf g.nextTetrimino.shape ∧
    g'.tetrimino.center = (4, 20) ∧
    drawFromBag js g.genBag g.bagIndex =
      some (g'.nextTetrimino, g'.genBag, g'.bagIndex) ∧
    g'.linesCleared = g.linesCleared ∧ g'.level = g.level ∧ g'.cfg = g.cfg := by
  rw [lockDownV0] at hres
  rcases hw : writeCells g.tetrimino.x g.tetrimino.y g.tetrimino.shape
      g.tetrimino.minos g.matrix with _ | m'
  · rw [hw] at hres
    cases hres
  · rw [hw] at hres
    rcases hd : drawFromBag js g.genBag g.bagIndex with _ | tb
    · rw [hd] at hres
      cases hres
    · rw [hd] at hres
      obtain hg := Option.some.inj hres
      obtain ⟨-, -, hcells⟩ :=
        writeCells_spec g.cfg.matrixWidth g.tetrimino.x g.tetrimino.y
          g.tetrimino.shape g.tetrimino.minos g.matrix m' hw hrows
      rw [← hg]
      exact ⟨hcells, rfl, rfl, rfl, rfl, rfl, rfl, rfl, rfl, rfl⟩

/-- C1 witness: locking down an O piece at the origin of a standard matrix
    marks its four cells with the O shape. -/
theorem lockDownV0_spec_witness :
    getCell ((lockDownV0 (fun i => i) gV0).getD gV0).matrix 1 1 =
      some (some TetriminoShape.O) :=
  have h := lockDownV0_spec (fun i => i) gV0 ((lockDownV0 (fun i => i) gV0).getD gV0)
    (by decide) (by decide)
  h.1 (1, 1) (by decide) (by decide) (by decide)

/-- Helper: replacing the element at position `m` (which is `b`) by `a` and
    re-consing `b` is a permutation of consing `a`. -/
theorem cons_set_perm : ∀ (t : List α) (m : ℕ) (a b : α),
    t.get? m = some b → (b :: t.set m a).Perm (a :: t) := by
  intro t
  induction t with
  | nil =>
    intro m a b h
    cases h
  | cons y s ih =>
    intro m a b h
    cases m with
    | zero =>
      rw [List.get?_cons_zero, Option.some.injEq] at h
      subst h
      exact List.Perm.swap a y s
    | succ k =>
      rw [List.get?_cons_succ] at h
      exact ((List.Perm.swap y b (s.set k a)).trans
        ((ih k a b h).cons y)).trans (List.Perm.swap a y s)

/-- Helper: the two-sided `set` swap of in-range positions is a
    permutation. -/
theorem set_set_perm : ∀ (l : List α) (i j : ℕ) (a b : α),
    l.get? i = some a → l.get? j = some b → ((l.set i b).set j a).Perm l := by
  intro l
  induction l with
  | nil =>
    intro i j a b hi hj
    cases hi
  | cons x t ih =>
    intro i j a b hi hj
    cases i with
    | zero =>
      rw [List.get?_cons_zero, Option.some.injEq] at hi
      subst hi
      cases j with
      | zero =>
        rw [List.get?_cons_zero, Option.some.injEq] at hj
        subst hj
        exact List.Perm.refl _
      | succ m =>
        rw [List.get?_cons_succ] at hj
        exact cons_set_perm t m x b hj
    | succ n =>
      rw [List.get?_cons_succ] at hi
      cases j with
      | zero =>
        rw [List.get?_cons_zero, Option.some.injEq] at hj
        subst hj
        exact cons_set_perm t n x a hi
      | succ m =>
        rw [List.get?_cons_succ] at hj
        exact (ih n m a b hi hj).cons x

/-- Helper: one Fisher–Yates swap step is a permutation. -/
theorem swapIdx_perm (l : List α) (i j : ℕ) : (swapIdx l i j).Perm l := by
  rw [swapIdx]
  rcases hi : l.get? i with _ | a
  · exact List.Perm.refl l
  · rcases hj : l.get? j with _ | b
    · exact List.Perm.refl l
    · exact set_set_perm l i j a b hi hj

/-- Helper: the Fisher–Yates loop body is a permutation. -/
theorem fyAux_perm (js : ℕ → ℕ) : ∀ (n : ℕ) (l : List α), (fyAux js n l).Perm l := by
  intro n
  induction n with
  | zero =>
    intro l
    exact List.Perm.refl l
  | succ n ih =>
    intro l
    exact (ih (swapIdx l (n + 1) (js (n + 1)))).trans
      (swapIdx_perm l (n + 1) (js (n + 1)))

/-- Helper: `shuffleBag` always leaves the bag a permutation of what it
    held. -/
theorem fisherYates_perm (js : ℕ → ℕ) (l : List α) : (fisherYates js l).Perm l :=
  fyAux_perm js (l.length - 1) l

/-- Helper: `n` draws that stay inside the bag serve the bag's next `n`
    entries in order and just advance the cursor. -/
theorem drawN_inbag (st : ℕ → ℕ → ℕ) : ∀ (n : ℕ) (bag : List Tetrimino) (i k : ℕ),
    i + n ≤ bag.length →
    drawN st n ⟨bag, i, k⟩ = some ((bag.drop i).take n, ⟨bag, i + n, k⟩) := by
  intro n
  induction n with
  | zero =>
    intro bag i k h
    simp [drawN]
  | succ n ih =>
    intro bag i k h
    have hilt : i < bag.length := by omega
    have hni : ¬bag.length ≤ i := by omega
    have hget : bag.get? i = some bag[i] := by
      rw [List.get?_eq_getElem?, List.getElem?_eq_getElem hilt]
    rw [drawN, drawStream, drawFromBag]
    simp only [if_neg hni, hget, Option.map_some', Option.some_bind]
    rw [ih bag (i + 1) k (by omega)]
    simp only [Option.map_some']
    rw [List.drop_eq_getElem_cons hilt, List.take_succ_cons]
    have harith : i + 1 + n = i + (n + 1) := by omega
    rw [harith]

/-- Helper: draws decompose over addition of counts. -/
theorem drawN_add (st : ℕ → ℕ → ℕ) : ∀ (a b : ℕ) (s : BagState),
    drawN st (a + b) s = (drawN st a s).bind fun ls =>
      (drawN st b ls.2).map fun ls2 => (ls.1 ++ ls2.1, ls2.2) := by
  intro a
  induction a with
  | zero =>
    intro b s
    rw [Nat.zero_add]
    rcases h : drawN st b s with _ | ls2
    · simp [drawN, h]
    · simp [drawN, h]
  | succ a ih =>
    intro b s
    have hn : a + 1 + b = (a + b) + 1 := by omega
    rw [hn]
    rcases hds : drawStream st s with _ | ts
    · rw [drawN, hds, drawN, hds]
      rfl
    · rw [drawN, hds, drawN, hds]
      simp only [Option.some_bind]
      rw [ih b ts.2]
      rcases hda : drawN st a ts.2 with _ | ls
      · rfl
      · simp only [Option.some_bind, Option.map_some']
        rcases hdb : drawN st b ls.2 with _ | ls2
      
        · rfl
        · simp

/-- Helper: seven draws from an aligned cursor serve exactly the bag's
    contents in order. -/
theorem drawN_window_zero (st : ℕ → ℕ → ℕ) (bag : List Tetrimino) (k : ℕ)
    (h7 : bag.length = 7) :
    drawN st 7 ⟨bag, 0, k⟩ = some (bag, ⟨bag, 7, k⟩) := by
  have h := drawN_inbag st 7 bag 0 k (by omega)
  rw [h, List.drop_zero, ← h7, List.take_length, Nat.zero_add]

/-- Helper: seven draws from an exhausted cursor reshuffle once and then
    serve the shuffled bag's contents in order. -/
theorem drawN_window_shuffle (st : ℕ → ℕ → ℕ) (bag : List Tetrimino) (i k : ℕ)
    (h7 : bag.length = 7) (hi : bag.length ≤ i) :
    drawN st 7 ⟨bag, i, k⟩ =
      some (fisherYates (st k) bag, ⟨fisherYates (st k) bag, 7, k + 1⟩) := by
  have hlen' : (fisherYates (st k) bag).length = 7 := by
    rw [(fisherYates_perm (st k) bag).length_eq]
    exact h7
  have hget0 : (fisherYates (st k) bag).get? 0 = some (fisherYates (st k) bag)[0] := by
    rw [List.get?_eq_getElem?, List.getElem?_eq_getElem (by omega)]
  have hstep : drawN st 7 ⟨bag, i, k⟩ = (drawStream st ⟨bag, i, k⟩).bind fun ts =>
      (drawN st 6 ts.2).map fun ls => (ts.1 :: ls.1, ls.2) := rfl
  rw [hstep, drawStream, drawFromBag]
  simp only [if_pos hi, hget0, Option.map_some', Option.some_bind]
  rw [drawN_inbag st 6 (fisherYates (st k) bag) 1 (k + 1) (by omega)]
  simp only [Option.map_some']
  have e : (fisherYates (st k) bag)[0] ::
      ((fisherYates (st k) bag).drop 1).take 6 = fisherYates (st k) bag := by
    rw [← List.take_succ_cons, ← List.drop_eq_getElem_cons (by omega), List.drop_zero]
    have h67 : (6 : ℕ) + 1 = 7 := rfl
    rw [h67, ← hlen', List.take_length]
  rw [e]

/-- Helper: every aligned window of 7 draws is a permutation of the bag the
    sequence started from, and the very first window (cursor at 0) is the
    bag itself in order. -/
theorem drawN_windows_aux (st : ℕ → ℕ → ℕ) : ∀ (n : ℕ) (bag : List Tetrimino) (i k : ℕ),
    bag.length = 7 → (i = 0 ∨ 7 ≤ i) →
    ∃ l s', drawN st (7 * n + 7) ⟨bag, i, k⟩ = some (l, s') ∧
      (l.drop (7 * n)).Perm bag ∧ (i = 0 → l.take 7 = bag) := by
  intro n
  induction n with
  | zero =>
    intro bag i k h7 hi
    rcases hi with hi | hi
    · subst hi
      refine ⟨bag, ⟨bag, 7, k⟩, drawN_window_zero st bag k h7, ?_, fun _ => ?_⟩
      · exact List.Perm.refl bag
      · rw [← h7, List.take_length]
    · refine ⟨fisherYates (st k) bag, ⟨fisherYates (st k) bag, 7, k + 1⟩,
        drawN_window_shuffle st bag i k h7 (by omega), ?_, fun h0 => by omega⟩
      exact fisherYates_perm (st k) bag
  | succ n ih =>
    intro bag i k h7 hi
    have hsplit : 7 * (n + 1) + 7 = 7 + (7 * n + 7) := by ring
    rw [hsplit, drawN_add]
    rcases hi with hi | hi
    · subst hi
      rw [drawN_window_zero st bag k h7]
      simp only [Option.some_bind]
      obtain ⟨l2, s2, hd2, hperm2, -⟩ := ih bag 7 k h7 (Or.inr (by omega))
      rw [hd2]
      simp only [Option.map_some']
      refine ⟨bag ++ l2, s2, rfl, ?_, fun _ => ?_⟩
      · have harith : 7 * (n + 1) = bag.length + 7 * n := by omega
        rw [harith, List.drop_append]
        exact hperm2
      · rw [← h7]
        exact List.take_left bag l2
    · rw [drawN_window_shuffle st bag i k h7 (by omega)]
      simp only [Option.some_bind]
      have hlen' : (fisherYates (st k) bag).length = 7 := by
        rw [(fisherYates_perm (st k) bag).length_eq]
        exact h7
      obtain ⟨l2, s2, hd2, hperm2, -⟩ :=
        ih (fisherYates (st k) bag) 7 (k + 1) hlen' (Or.inr (by omega))
      rw [hd2]
      simp only [Option.map_some']
      refine ⟨fisherYates (st k) bag ++ l2, s2, rfl, ?_, fun h0 => by omega⟩
      have harith : 7 * (n + 1) = (fisherYates (st k) bag).length + 7 * n := by omega
      rw [harith, List.drop_append]
      exact hperm2.trans (fisherYates_perm (st k) bag)

/-- C8: starting from any bag-refill boundary (cursor 0, bag a permutation
    of the seven playable shapes), every consecutive non-overlapping window
    of 7 draws contains each of the seven shapes exactly once; the very
    first window serves bag indices 0 through 6 in order before any
    reshuffle; and `shuffleBag` (Fisher–Yates) always leaves the bag a
    permutation of its previous contents.  `st k i` stands for the `k`-th
    shuffle's `⌊random()·(i+1)⌋` draw, whence `st k i ≤ i`. -/
theorem bag_seven_window (st : ℕ → ℕ → ℕ) (s0 : BagState) (n : ℕ)
    (l : List Tetrimino) (s' : BagState)
    (hjs : ∀ k i, st k i ≤ i)
    (hshapes : (s0.bag.map Tetrimino.shape).Perm sevenShapes)
    (hidx : s0.idx = 0)
    (hdraw : drawN st (7 * n + 7) s0 = some (l, s')) :
    ((l.drop (7 * n)).map Tetrimino.shape).Perm sevenShapes ∧
    l.take 7 = s0.bag ∧
    ∀ (js : ℕ → ℕ) (bag : List Tetrimino), (fisherYates js bag).Perm bag := by
  have h7 : s0.bag.length = 7 := by
    have hl := hshapes.length_eq
    simpa using hl
  obtain ⟨l0, s0', hd0, hperm0, htake0⟩ :=
    drawN_windows_aux st n s0.bag s0.idx s0.shuffles h7 (Or.inl hidx)
  have hs0 : (⟨s0.bag, s0.idx, s0.shuffles⟩ : BagState) = s0 := rfl
  rw [hs0] at hd0
  have hinj : (l, s') = (l0, s0') := Option.some.inj (hdraw.symm.trans hd0)
  have hl : l = l0 := congrArg Prod.fst hinj
  subst hl
  exact ⟨(hperm0.map Tetrimino.shape).trans hshapes, htake0 hidx,
    fun js bag => fisherYates_perm js bag⟩

/-- C8 witness: fourteen draws from the fresh seven-piece bag with a
    concrete randomness table; the second window of 7 draws is again a
    permutation of the seven shapes. -/
theorem bag_seven_window_witness :
    ((((drawN (fun _ _ => 0) (7 * 1 + 7) ⟨freshBag, 0, 0⟩).getD
        ([], ⟨[], 0, 0⟩)).1.drop (7 * 1)).map Tetrimino.shape).Perm sevenShapes :=
  (bag_seven_window (fun _ _ => 0) ⟨freshBag, 0, 0⟩ 1
    ((drawN (fun _ _ => 0) (7 * 1 + 7) ⟨freshBag, 0, 0⟩).getD ([], ⟨[], 0, 0⟩)).1
    ((drawN (fun _ _ => 0) (7 * 1 + 7) ⟨freshBag, 0, 0⟩).getD ([], ⟨[], 0, 0⟩)).2
    (fun _ i => Nat.zero_le i) (by decide) rfl rfl).1
